import Mathlib

/-!
Verification model of the poly trading engine.

This file gives a shallow embedding, over exact rational arithmetic, of the
parts of the repository that the specification claims talk about:

* `src/src/risk/risk_manager.py` (`RiskManager`),
* `src/src/strategy/technical_analysis.py` (`TechnicalAnalysis`),
* `src/src/strategy/fair_value.py` (`FairValueCalculator`),
* `src/src/data/market_discovery.py` (`discover_15min_btc_markets`),
* `src/dashboard/paper_trading.py` (`PaperTradingEngine`).

Modelling conventions:

* Python floats are modelled as rationals; wall-clock instants and dates are
  modelled as integers (seconds, resp. day numbers).  The engine reads the
  clock through `datetime.now` / `time.time`; the embedding passes the
  current instant in explicitly.  (Note that `paper_trading.py` never
  imports the `time` module even though it calls `time.time()`; the
  embedding models the intended clock read.)
* The external float library routines `math.sqrt`, `math.log` and
  `scipy.stats.norm.cdf` are not code of this repository; they enter the
  model as an explicit bundle of functions (`FloatOps`).
* Network input (exchange prices, the discovery event feed, the computed
  volatility, the random fill draw) is passed in as data.
* `RiskManager` has no method `check_drawdown`, yet
  `PaperTradingEngine._settle_expired_positions` calls
  `self.risk_manager.check_drawdown(...)` on the real-settlement path.  The
  embedding models the resulting `AttributeError` faithfully: the sweep
  aborts at that point with every mutation made so far kept (Python mutates
  the engine in place) and every later statement skipped.
-/

set_option autoImplicit false

namespace Poly

/-- Returns true when the first character list occurs contiguously inside the
second; models the Python substring test `needle in hay`. -/
def hasSubchars (needle : List Char) : List Char → Bool
  | [] => needle.isEmpty
  | c :: rest => needle.isPrefixOf (c :: rest) || hasSubchars needle rest

/-- Substring test on strings, models Python `needle in hay`. -/
def strContains (needle hay : String) : Bool :=
  hasSubchars needle.toList hay.toList

/-! ## Risk manager (src/src/risk/risk_manager.py) -/

/-- State of `RiskManager`: configured limits, daily tracking, position
count, halt flag and counters. -/
structure RiskState where
  max_daily_loss : ℚ
  max_position : ℚ
  max_positions : ℕ
  max_trade : ℚ
  current_date : ℤ
  daily_pnl : ℚ
  daily_trades : ℕ
  open_positions : ℕ
  is_halted : Bool
  halt_reason : String
  trades_approved : ℕ
  trades_rejected : ℕ
deriving DecidableEq

/-- Constructor defaults of `RiskManager.__init__`, with the starting date
passed in for `date.today()`. -/
def initRisk (maxDaily maxPos : ℚ) (maxOpen : ℕ) (maxTrade : ℚ) (d0 : ℤ) : RiskState :=
  { max_daily_loss := maxDaily
    max_position := maxPos
    max_positions := maxOpen
    max_trade := maxTrade
    current_date := d0
    daily_pnl := 0
    daily_trades := 0
    open_positions := 0
    is_halted := false
    halt_reason := ""
    trades_approved := 0
    trades_rejected := 0 }

/-- `RiskManager._reset_daily_if_needed`: on a date change, reset the daily
counters and clear a halt whose reason mentions "daily loss". -/
def resetDailyIfNeeded (today : ℤ) (rs : RiskState) : RiskState :=
  if today ≠ rs.current_date then
    let clear := rs.is_halted && strContains "daily loss" rs.halt_reason.toLower
    { rs with
      current_date := today
      daily_pnl := 0
      daily_trades := 0
      is_halted := if clear then false else rs.is_halted
      halt_reason := if clear then "" else rs.halt_reason }
  else rs

/-- Result of `RiskManager.validate_trade`: the returned pair plus the risk
state after the call (the method mutates counters and the halt flag). -/
structure RiskDecision where
  ok : Bool
  reason : String
  rs : RiskState
deriving DecidableEq

/-- Rejection helper: bump `trades_rejected` and return the reason. -/
def rejectWith (r : String) (rs : RiskState) : RiskDecision :=
  ⟨false, r, { rs with trades_rejected := rs.trades_rejected + 1 }⟩

/-- `RiskManager.validate_trade`.  The numeric interpolations of the source
reason strings are kept only where a later check reads the text back (the
halt reason); other reasons keep their identifying prefix. -/
def validate_trade (today : ℤ) (price size fee_rate : ℚ) (side : String)
    (rs0 : RiskState) : RiskDecision :=
  let rs := resetDailyIfNeeded today rs0
  if rs.is_halted then rejectWith ("Trading halted: " ++ rs.halt_reason) rs
  else
    let total_cost := price * size * (1 + fee_rate)
    if total_cost > rs.max_trade then rejectWith "Trade too large" rs
    else if total_cost > rs.max_position then rejectWith "Position too large" rs
    else if rs.daily_pnl < -rs.max_daily_loss then
      let r := "Daily loss limit reached: " ++ toString (-rs.daily_pnl)
      ⟨false, r,
        { rs with is_halted := true, halt_reason := r,
                  trades_rejected := rs.trades_rejected + 1 }⟩
    else if side = "BUY" ∧ rs.open_positions ≥ rs.max_positions then
      rejectWith "Max positions reached" rs
    else if price > 99/100 ∨ price < 1/100 then rejectWith "Suspicious price" rs
    else if size ≤ 0 ∨ size > 10000 then rejectWith "Invalid size" rs
    else ⟨true, "OK", { rs with trades_approved := rs.trades_approved + 1 }⟩

/-- `RiskManager.record_trade_opened` (the cost argument is only logged). -/
def record_trade_opened (_cost : ℚ) (rs : RiskState) : RiskState :=
  { rs with
    open_positions := rs.open_positions + 1
    daily_trades := rs.daily_trades + 1 }

/-- `RiskManager.record_trade_closed`: decrement the open count (floored at
zero, which ℕ subtraction gives), add the pnl, and halt when the daily loss
limit is crossed. -/
def record_trade_closed (pnl : ℚ) (rs : RiskState) : RiskState :=
  let rs1 := { rs with
    open_positions := rs.open_positions - 1
    daily_pnl := rs.daily_pnl + pnl }
  if rs1.daily_pnl < -rs1.max_daily_loss then
    { rs1 with
      is_halted := true
      halt_reason := "Daily loss limit: " ++ toString (-rs1.daily_pnl) }
  else rs1

/-! ## Technical analysis (src/src/strategy/technical_analysis.py) -/

/-- Consecutive differences of a price list, models `np.diff`. -/
def diffs : List ℚ → List ℚ
  | a :: b :: rest => (b - a) :: diffs (b :: rest)
  | _ => []

/-- Arithmetic mean; callers only apply it to non-empty lists. -/
def listMean (l : List ℚ) : ℚ := l.sum / l.length

/-- Wilder smoothing loop of `TechnicalAnalysis.calculate_rsi`: one step per
remaining (gain, loss) pair, carrying the running averages and the rsi value
computed so far. -/
def rsiLoop (period : ℚ) (ag al rsi : ℚ) : List (ℚ × ℚ) → ℚ
  | [] => rsi
  | (g, l) :: rest =>
    let ag1 := (ag * (period - 1) + g) / period
    let al1 := (al * (period - 1) + l) / period
    let rsi1 := if al1 = 0 then 100 else 100 - 100 / (1 + ag1 / al1)
    rsiLoop period ag1 al1 rsi1 rest

/-- `TechnicalAnalysis.calculate_rsi`.  The seed block of the source (lines
37-42) computes values that are immediately recomputed and never read, so it
is not represented.  Fewer than period+1 samples yield 50. -/
def calculate_rsi (prices : List ℚ) (period : ℕ := 14) : ℚ :=
  if prices.length < period + 1 then 50
  else
    let deltas := diffs prices
    let gains := deltas.map (fun d => max d 0)
    let losses := deltas.map (fun d => max (-d) 0)
    let avg_gain := listMean (gains.take period)
    let avg_loss := listMean (losses.take period)
    if avg_loss = 0 then 100
    else
      let rsi0 := 100 - 100 / (1 + avg_gain / avg_loss)
      rsiLoop period avg_gain avg_loss rsi0
        ((gains.drop period).zip (losses.drop period))

/-- `TechnicalAnalysis.calculate_sma`: mean of the last period samples, else
the last sample, else 0 on an empty history. -/
def calculate_sma (prices : List ℚ) (period : ℕ := 20) : ℚ :=
  if prices.length < period then (prices.getLast?).getD 0
  else listMean (prices.drop (prices.length - period))

/-- Trend classification of `TechnicalAnalysis.get_trend_state`. -/
inductive Trend
  | UP
  | DOWN
  | FLAT
deriving DecidableEq

/-- The fields of the `get_trend_state` result that the engine reads (the
strength field is never read by the trading paths and is omitted). -/
structure TrendState where
  trend : Trend
  rsi : ℚ
  sma : ℚ
deriving DecidableEq

/-- `TechnicalAnalysis.get_trend_state` on the price history. -/
def get_trend_state (prices : List ℚ) : TrendState :=
  match prices with
  | [] => ⟨Trend.FLAT, 50, 0⟩
  | _ =>
    let current := (prices.getLast?).getD 0
    let sma := calculate_sma prices 20
    let rsi := calculate_rsi prices 14
    let trend :=
      if current > sma * (10005/10000) then Trend.UP
      else if current < sma * (9995/10000) then Trend.DOWN
      else Trend.FLAT
    ⟨trend, rsi, sma⟩

/-! ## Fair value -/

/-- External float routines used by the pricing code: `math.sqrt`,
`math.log` and `scipy.stats.norm.cdf`.  They are library functions, not code
of this repository, so the model is parametric in them. -/
structure FloatOps where
  sqrtF : ℚ → ℚ
  logF : ℚ → ℚ
  cdfF : ℚ → ℚ

/-- Clipping to the band [0.01, 0.99], `max(0.01, min(0.99, p))`. -/
def clip01 (p : ℚ) : ℚ := max (1/100) (min (99/100) p)

/-- Inline fair-probability block of
`PaperTradingEngine._evaluate_trading_opportunities` (lines 563-576): the
degenerate branch fires when the scaled volatility is tiny or the strike is
non-positive, and the clip applies to both branches. -/
def fairProbInline (ops : FloatOps) (vol S strike remaining_seconds : ℚ) : ℚ :=
  let T := remaining_seconds / 31557600
  let sigma_t := vol * ops.sqrtF T
  let raw :=
    if sigma_t < 1/10000 ∨ strike ≤ 0 then (if S > strike then 1 else 0)
    else ops.cdfF (ops.logF (S / strike) / sigma_t)
  clip01 raw

/-- `FairValueCalculator.calculate_fair_probability`
(src/src/strategy/fair_value.py).  Its degenerate guard tests the spot, not
the strike; a non-positive strike in the main branch sets d = 0; the early
return for expired markets and the degenerate return are not clipped.  The
try/except around the log is unreachable there (S and K are positive when
the log is taken), so it is not represented. -/
def calculate_fair_probability (ops : FloatOps) (annual_vol : ℚ) (S K : ℚ)
    (remaining_seconds : ℤ) : ℚ :=
  if remaining_seconds ≤ 0 then (if S > K then 1 else 0)
  else
    let T : ℚ := (remaining_seconds : ℚ) / 31557600
    let sigma_t := annual_vol * ops.sqrtF T
    if sigma_t < 1/10000 ∨ S ≤ 0 then (if S > K then 1 else 0)
    else
      let d := if K > 0 then ops.logF (S / K) / sigma_t else 0
      clip01 (ops.cdfF d)

/-! ## Engine data model (src/dashboard/paper_trading.py) -/

/-- Side of a binary position, the "up" / "down" strings of the source. -/
inductive Side
  | up
  | down
deriving DecidableEq

/-- Status of a completed paper trade. -/
inductive TradeStatus
  | won
  | lost
  | void
  | pending
deriving DecidableEq

/-- `PaperPosition`.  The token id comes from `market["tokens"].get(side)`
and may be absent, hence the option. -/
structure PaperPosition where
  market_slug : String
  question : String
  side : Side
  entry_price : ℚ
  amount : ℚ
  entry_time : ℤ
  end_time : ℤ
  token_id : Option String
  strike_price : ℚ
deriving DecidableEq

/-- `PaperTrade`; the source formats the id as "PT-%04d" from a counter, the
model keeps the counter value. -/
structure PaperTrade where
  idNum : ℕ
  market_slug : String
  question : String
  side : Side
  entry_price : ℚ
  exit_price : ℚ
  amount : ℚ
  pnl : ℚ
  time : ℤ
  status : TradeStatus
  trade_type : String
deriving DecidableEq

/-- A discovered market: the dict built by `discover_15min_btc_markets` and
consumed by the evaluator.  Prices and tokens are options because the JSON
arrays may be short (`get_safe` defaults to `None`); discovery only emits
markets whose two outcome prices are present. -/
structure Market where
  condition_id : String
  question : String
  description : String
  strike_price : Option ℚ
  slug : String
  end_date : Option ℤ
  start_time : String
  token_up : Option String
  token_down : Option String
  price_up : Option ℚ
  price_down : Option ℚ
  volume : ℚ
  liquidity : ℚ
  best_bid : ℚ
  best_ask : ℚ
  accepting_orders : Bool
deriving DecidableEq

/-- Mutable state of `PaperTradingEngine` (the fields the trading, market,
price and settlement loops read and write). -/
structure EngineState where
  initial_balance : ℚ
  balance : ℚ
  pnl_today : ℚ
  total_trades : ℕ
  winning_trades : ℕ
  positions : List PaperPosition
  trades : List PaperTrade
  btc_price : ℚ
  last_price_update : ℤ
  markets : List Market
  price_history : List ℚ
  last_trade_time : Option ℤ
  risk : RiskState
deriving DecidableEq

/-- A fresh `PaperTradingEngine` (no persisted data file): $10 balance and a
risk manager in strict single-trade mode.  The date parameter stands for
`date.today()` at construction. -/
def initEngine (d0 : ℤ) : EngineState :=
  { initial_balance := 10
    balance := 10
    pnl_today := 0
    total_trades := 0
    winning_trades := 0
    positions := []
    trades := []
    btc_price := 0
    last_price_update := 0
    markets := []
    price_history := []
    last_trade_time := none
    risk := initRisk 5 5 1 5 d0 }

/-- Inputs of one evaluator cycle that come from outside the engine state:
the clock, the date, the volatility fetched from the klines endpoint
(`_calculate_volatility`), the float routines, and the outcome of the
random fill draw of `_execute_paper_trade` (`random.random() <= 0.80`). -/
structure ExtIn where
  now : ℤ
  today : ℤ
  vol : ℚ
  ops : FloatOps
  fill : Bool

/-- The snapshot a single evaluator pass works on. -/
structure EvalCtx where
  now : ℤ
  today : ℤ
  vol : ℚ
  ops : FloatOps
  btc : ℚ
  hist : List ℚ
  poss : List PaperPosition

/-- Seconds remaining until an end instant. -/
def remainingSecs (now e : ℤ) : ℚ := ((e - now : ℤ) : ℚ)

/-- TA permission for buying the up side: not a downtrend and RSI at most
70 (`can_buy_up` of the source). -/
def canBuyUp (hist : List ℚ) : Prop :=
  (get_trend_state hist).trend ≠ Trend.DOWN ∧ ¬ ((get_trend_state hist).rsi > 70)

/-- TA permission for buying the down side: not an uptrend and RSI at least
30 (`can_buy_down` of the source). -/
def canBuyDown (hist : List ℚ) : Prop :=
  (get_trend_state hist).trend ≠ Trend.UP ∧ ¬ ((get_trend_state hist).rsi < 30)

instance (hist : List ℚ) : Decidable (canBuyUp hist) := by
  unfold canBuyUp; infer_instance

instance (hist : List ℚ) : Decidable (canBuyDown hist) := by
  unfold canBuyDown; infer_instance

/-- Per-market body of
`PaperTradingEngine._evaluate_trading_opportunities` (lines 511-667): the
gate chain, the fair-probability computation and the side pick.  Returns
the chosen side and entry price of the first branch that fires, or `none`
when the market is skipped this cycle. -/
def evalMarket (c : EvalCtx) (m : Market) : Option (Side × ℚ) :=
  if m.best_ask - m.best_bid > 5/100 then none
  else if c.poss.any (fun p => p.market_slug = m.slug) then none
  else if m.accepting_orders = false then none
  else
    match m.strike_price with
    | none => none
    | some strike =>
      -- Python `if not strike` also drops a strike equal to 0.0.
      if strike = 0 then none
      else
        match m.end_date with
        | none => none
        | some endT =>
          let remaining_seconds := remainingSecs c.now endT
          let remaining_minutes := remaining_seconds / 60
          if remaining_minutes ≤ 1 then none
          else if remaining_minutes > 12 then none
          else if remaining_minutes ≤ 0 then none
          else
            let fair := fairProbInline c.ops c.vol c.btc strike remaining_seconds
            if 2/5 < fair ∧ fair < 3/5 then none
            else
              match m.price_up, m.price_down with
              | some pu, some pd =>
                if ¬ (19/20 ≤ pu + pd ∧ pu + pd ≤ 21/20) then none
                else
                  if canBuyUp c.hist ∧ fair > pu + 1/10 then some (Side.up, pu)
                  else if canBuyDown c.hist ∧ 1 - fair > pd + 1/10 then
                    some (Side.down, pd)
                  else none
              | _, _ => none

/-- Sort key of the evaluator (`get_time_remaining`), parse failure maps to
a huge constant. -/
def keyRemaining (now : ℤ) (m : Market) : ℚ :=
  match m.end_date with
  | some e => remainingSecs now e
  | none => 9999999

/-- Stable insertion by remaining time; together with `sortMarkets` this
models the stable Python `sorted(..., key=get_time_remaining)`. -/
def insertByKey (now : ℤ) (m : Market) : List Market → List Market
  | [] => [m]
  | x :: xs =>
    if keyRemaining now m ≤ keyRemaining now x then m :: x :: xs
    else x :: insertByKey now m xs

/-- Candidate markets sorted by remaining time ascending. -/
def sortMarkets (now : ℤ) (ms : List Market) : List Market :=
  ms.foldr (insertByKey now) []

/-- First market of the scan on which a side is picked; the source executes
on it and breaks out of the loop. -/
def firstDecision (c : EvalCtx) : List Market → Option (Market × Side × ℚ)
  | [] => none
  | m :: rest =>
    match evalMarket c m with
    | some (sd, pr) => some (m, sd, pr)
    | none => firstDecision c rest

/-- `PaperTradingEngine._execute_paper_trade`: fill simulation, position
sizing, risk validation, then position creation and balance deduction.  A
missed fill leaves the state untouched; a risk rejection keeps only the
mutation `validate_trade` made to the risk counters. -/
def execute_paper_trade (e : ExtIn) (s : EngineState) (m : Market)
    (side : Side) (price : ℚ) : EngineState :=
  if e.fill = false then s
  else
    let edge := |1/2 - price|
    let pct := 1/20 + edge * (3/10)
    let size0 := s.balance * pct
    let size := if size0 > s.balance then s.balance else size0
    let d := validate_trade e.today price size 0 "BUY" s.risk
    if d.ok = false then { s with risk := d.rs }
    else
      let pos : PaperPosition :=
        { market_slug := m.slug
          question := m.question
          side := side
          entry_price := price
          amount := size
          entry_time := e.now
          end_time := (m.end_date).getD 0
          token_id := (match side with | Side.up => m.token_up | Side.down => m.token_down)
          strike_price := (m.strike_price).getD 0 }
      { s with
        positions := s.positions ++ [pos]
        balance := s.balance - size
        risk := record_trade_opened size d.rs
        last_trade_time := some e.now }

/-- `PaperTradingEngine._evaluate_trading_opportunities`: the early exits
(no markets, no oracle price, balance under the $2 floor, 10 s cooldown,
any open position), then the scan over the sorted candidates with at most
one executed trade per cycle. -/
def evaluate_trading_opportunities (e : ExtIn) (s : EngineState) : EngineState :=
  if s.markets = [] ∨ s.btc_price ≤ 0 then s
  else if s.balance < 2 then s
  else if (match s.last_trade_time with
           | some t => decide (((e.now - t : ℤ) : ℚ) < 10)
           | none => false) then s
  else if s.positions ≠ [] then s
  else
    let c : EvalCtx :=
      { now := e.now, today := e.today, vol := e.vol, ops := e.ops,
        btc := s.btc_price, hist := s.price_history, poss := s.positions }
    match firstDecision c (sortMarkets e.now s.markets) with
    | none => s
    | some (m, sd, pr) => execute_paper_trade e s m sd pr

/-! ## Settlement (PaperTradingEngine._settle_expired_positions) -/

/-- The void trade record written on the late-void path (lines 809-821):
status void, pnl 0, trade type LateVoid, timestamped with the entry time. -/
def mkVoidTrade (s : EngineState) (p : PaperPosition) : PaperTrade :=
  { idNum := s.total_trades
    market_slug := p.market_slug
    question := p.question
    side := p.side
    entry_price := p.entry_price
    exit_price := 0
    amount := p.amount
    pnl := 0
    time := p.entry_time
    status := TradeStatus.void
    trade_type := "LateVoid" }

/-- Late-void handling of one position: refund the amount, drop the
position, append the void trade record, bump the trade counter. -/
def applyVoid (s : EngineState) (p : PaperPosition) : EngineState :=
  { s with
    balance := s.balance + p.amount
    positions := s.positions.erase p
    trades := s.trades ++ [mkVoidTrade s p]
    total_trades := s.total_trades + 1 }

/-- Win test of the real settlement: up wins strictly above the strike,
down strictly below. -/
def positionWon (settlement_price : ℚ) (p : PaperPosition) : Bool :=
  match p.side with
  | Side.up => settlement_price > p.strike_price
  | Side.down => settlement_price < p.strike_price

/-- Real settlement of one position up to the crash point.  The source
updates the balance, daily pnl and counters and calls
`record_trade_closed`, then calls `self.risk_manager.check_drawdown(...)`
(line 868) — a method `RiskManager` does not define — so an AttributeError
aborts the sweep here: the trade record of lines 871-885 is never created
and the position is never removed from the open list. -/
def applyRealSettle (s : EngineState) (p : PaperPosition) : EngineState :=
  let won := positionWon s.btc_price p
  let pnl := if won then p.amount / p.entry_price - p.amount else -p.amount
  { s with
    balance := s.balance + p.amount + pnl
    pnl_today := s.pnl_today + pnl
    total_trades := s.total_trades + 1
    winning_trades := s.winning_trades + (if won then 1 else 0)
    risk := record_trade_closed pnl s.risk }

/-- Result of one settlement sweep: the engine state after it and whether
the sweep aborted with the AttributeError described at
`applyRealSettle`. -/
structure SweepOut where
  state : EngineState
  crashed : Bool
deriving DecidableEq

/-- The per-position loop of the sweep: late positions are voided and the
loop continues; the first position that reaches the real-settlement branch
crashes the sweep right after the partial mutation. -/
def settleLoop (now : ℤ) : EngineState → List PaperPosition → SweepOut
  | s, [] => ⟨s, false⟩
  | s, p :: rest =>
    if now - p.end_time > 300 then settleLoop now (applyVoid s p) rest
    else ⟨applyRealSettle s p, true⟩

/-- `PaperTradingEngine._settle_expired_positions`: gather the expired
positions, return unchanged when there are none, when the oracle price is
under $1000, or when the price is older than 30 seconds; otherwise run the
loop.  The staleness test reads the clock (the now parameter). -/
def settle_expired_positions (now : ℤ) (s : EngineState) : SweepOut :=
  let expired := s.positions.filter (fun p => p.end_time ≤ now)
  if expired.isEmpty then ⟨s, false⟩
  else if s.btc_price < 1000 then ⟨s, false⟩
  else if now - s.last_price_update > 30 then ⟨s, false⟩
  else settleLoop now s expired

/-! ## Reachability -/

/-- One oracle tick (`_price_loop`): set the composite price, stamp the
update time and append to the capped history (cap 200). -/
def applyPriceUpdate (avg : ℚ) (t : ℤ) (s : EngineState) : EngineState :=
  let hist := s.price_history ++ [avg]
  { s with
    btc_price := avg
    last_price_update := t
    price_history := if hist.length > 200 then hist.drop 1 else hist }

/-- Atomic state transitions of the engine: an oracle tick, a market
refresh (`_market_loop` replaces the candidate list), one evaluator cycle,
one settlement sweep.  The four loops share the single event loop and the
evaluator holds a lock across its cycle, so cycles are atomic at this
granularity. -/
inductive Step : EngineState → EngineState → Prop
  | price (avg : ℚ) (t : ℤ) (s : EngineState) : Step s (applyPriceUpdate avg t s)
  | markets (ms : List Market) (s : EngineState) : Step s { s with markets := ms }
  | evalCycle (e : ExtIn) (s : EngineState) :
      Step s (evaluate_trading_opportunities e s)
  | settle (now : ℤ) (s : EngineState) :
      Step s (settle_expired_positions now s).state

/-- States reachable from a fresh engine constructed on day d0. -/
inductive Reachable (d0 : ℤ) : EngineState → Prop
  | init : Reachable d0 (initEngine d0)
  | step {s t : EngineState} : Reachable d0 s → Step s t → Reachable d0 t

/-! ## Market discovery (src/src/data/market_discovery.py) -/

/-- A tag object of the event feed. -/
structure RawTag where
  slug : String
  label : String
deriving DecidableEq

/-- A market object of the event feed, after JSON decoding: the outcome
label list, the token-id and outcome-price arrays (possibly short), the
text fields, and the already-parsed end instant (`none` stands for a
missing or unparseable `endDate`). -/
structure RawMarket where
  outcomes : List String
  clobTokenIds : List String
  outcomePrices : List ℚ
  description : String
  question : String
  conditionId : String
  questionID : String
  endDate : Option ℤ
  volume : ℚ
  liquidity : ℚ
  bestBid : ℚ
  bestAsk : ℚ
  acceptingOrders : Bool
deriving DecidableEq

/-- An event object of the feed. -/
structure RawEvent where
  slug : String
  tags : List RawTag
  startDate : String
  markets : List RawMarket
deriving DecidableEq

/-- Numeric value of an all-digit character list, else `none`. -/
def digitsVal (cs : List Char) : Option ℕ :=
  if cs = [] then none
  else if cs.all Char.isDigit then
    some (cs.foldl (fun n c => n * 10 + (c.toNat - 48)) 0)
  else none

/-- The anchored, case-insensitive slug pattern btc-updown-15m-digits;
returns the captured timestamp. -/
def slugMatch (slug : String) : Option ℕ :=
  let low := slug.toLower
  if "btc-updown-15m-".isPrefixOf low then
    digitsVal (low.toList.drop 15)
  else none

/-- Case-insensitive substring test (the source lowers the haystack). -/
def strContainsLower (needle hay : String) : Bool :=
  strContains needle hay.toLower

/-- Event acceptance: a slug match captures a timestamp (`some (some ts)`);
otherwise the fallback fires when the event carries the 15M tag and the
first market mentions BTC or Bitcoin (`some none`, matching the
`match = True` of the source, which carries no timestamp). -/
def eventMatch (ev : RawEvent) : Option (Option ℕ) :=
  match slugMatch ev.slug with
  | some ts => some (some ts)
  | none =>
    let has15 := ev.tags.any (fun t => t.slug = "15M" || t.label = "15M")
    match ev.markets with
    | [] => none
    | m :: _ =>
      let d := m.description.toLower
      let q := m.question.toLower
      let isBtc := strContains "bitcoin" d || strContains "btc" d
        || strContains "bitcoin" q || strContains "btc" q
      if has15 && isBtc then some none else none

/-- Outcome index mapping: the loop keeps the last index labelled
yes/up/long as up and the last labelled no/down/short as down, then
defaults to 0 and 1. -/
def outcomeIdxs (outcomes : List String) : ℕ × ℕ :=
  let r := outcomes.enum.foldl
    (fun (acc : Option ℕ × Option ℕ) (il : ℕ × String) =>
      let l := il.2.toLower
      if l = "yes" ∨ l = "up" ∨ l = "long" then (some il.1, acc.2)
      else if l = "no" ∨ l = "down" ∨ l = "short" then (acc.1, some il.1)
      else acc)
    (none, none)
  ((r.1).getD 0, (r.2).getD 1)

/-- Processing of one event inside `discover_15min_btc_markets`.  The
strike resolver argument models, from the source, the regex scan of the
description followed by the historical-price fetch for started markets
(`get_btc_price_at_time`); both depend on the Python regex engine and the
network, so the resolved value is passed in.  No claim below depends on the
resolved strike.  Markets with a missing outcome price are skipped, and a
market is kept only when its end instant is in the future and its slug
timestamp (when the slug matched) is not older than one hour. -/
def processEvent (strikeOf : String → String → Option ℚ) (now : ℤ)
    (ev : RawEvent) : Option Market :=
  match eventMatch ev with
  | none => none
  | some mk =>
    match ev.markets with
    | [] => none
    | m :: _ =>
      let outcomes := if m.outcomes = [] then ["Yes", "No"] else m.outcomes
      let idxs := outcomeIdxs outcomes
      let strike := strikeOf m.description ev.startDate
      match m.outcomePrices.get? idxs.1, m.outcomePrices.get? idxs.2 with
      | some upP, some downP =>
        let info : Market :=
          { condition_id := m.conditionId
            question := m.question
            description := m.description
            strike_price := strike
            slug := ev.slug
            end_date := m.endDate
            start_time := ev.startDate
            token_up := m.clobTokenIds.get? idxs.1
            token_down := m.clobTokenIds.get? idxs.2
            price_up := some upP
            price_down := some downP
            volume := m.volume
            liquidity := m.liquidity
            best_bid := m.bestBid
            best_ask := m.bestAsk
            accepting_orders := m.acceptingOrders }
        match m.endDate with
        | none => none
        | some endT =>
          let valid : Bool :=
            match mk with
            | some ts => !(decide ((ts : ℤ) < now - 3600))
            | none => true
          if endT > now then (if valid then some info else none) else none
      | _, _ => none

/-- Sort key of the final `markets.sort(key=...)`: the source sorts by the
ISO end-date string, which for the uniform feed format orders by the end
instant. -/
def endKey (m : Market) : ℤ := (m.end_date).getD 0

/-- Stable insertion by end instant. -/
def insertByEnd (m : Market) : List Market → List Market
  | [] => [m]
  | x :: xs => if endKey m ≤ endKey x then m :: x :: xs else x :: insertByEnd m xs

/-- `discover_15min_btc_markets` on a decoded event feed: process each
event, keep the accepted markets, sort by end date ascending. -/
def discover_15min_btc_markets (strikeOf : String → String → Option ℚ)
    (now : ℤ) (events : List RawEvent) : List Market :=
  (events.filterMap (processEvent strikeOf now)).foldr insertByEnd []

/-! ## Helper lemmas -/

/-- The evaluator leaves the state untouched whenever a position is open
(the single-position early exit, line 494). -/
theorem eval_of_open_position (e : ExtIn) (s : EngineState)
    (hp : s.positions ≠ []) : evaluate_trading_opportunities e s = s := by
  unfold evaluate_trading_opportunities
  by_cases h1 : s.markets = [] ∨ s.btc_price ≤ 0
  · rw [if_pos h1]
  · rw [if_neg h1]
    by_cases h2 : s.balance < 2
    · rw [if_pos h2]
    · rw [if_neg h2]
      by_cases h3 : (match s.last_trade_time with
           | some t => decide (((e.now - t : ℤ) : ℚ) < 10)
           | none => false) = true
      · rw [if_pos h3]
      · rw [if_neg h3]
        rw [if_pos hp]

/-- An executed trade appends at most one position. -/
theorem execute_len (e : ExtIn) (s : EngineState) (m : Market) (sd : Side)
    (pr : ℚ) :
    (execute_paper_trade e s m sd pr).positions.length ≤
      s.positions.length + 1 := by
  unfold execute_paper_trade
  split_ifs
  · simp
  · simp only []
    split_ifs <;> simp

/-- One evaluator cycle grows the open-position list by at most one. -/
theorem eval_len (e : ExtIn) (s : EngineState) :
    (evaluate_trading_opportunities e s).positions.length ≤
      s.positions.length + 1 := by
  unfold evaluate_trading_opportunities
  by_cases h1 : s.markets = [] ∨ s.btc_price ≤ 0
  · rw [if_pos h1]; exact Nat.le_succ _
  · rw [if_neg h1]
    by_cases h2 : s.balance < 2
    · rw [if_pos h2]; exact Nat.le_succ _
    · rw [if_neg h2]
      by_cases h3 : (match s.last_trade_time with
           | some t => decide (((e.now - t : ℤ) : ℚ) < 10)
           | none => false) = true
      · rw [if_pos h3]; exact Nat.le_succ _
      · rw [if_neg h3]
        by_cases h4 : s.positions ≠ []
        · rw [if_pos h4]; exact Nat.le_succ _
        · rw [if_neg h4]
          show (match firstDecision
            { now := e.now, today := e.today, vol := e.vol, ops := e.ops,
              btc := s.btc_price, hist := s.price_history, poss := s.positions }
            (sortMarkets e.now s.markets) with
            | none => s
            | some (m, sd, pr) => execute_paper_trade e s m sd pr).positions.length ≤
              s.positions.length + 1
          cases hF : firstDecision
              { now := e.now, today := e.today, vol := e.vol, ops := e.ops,
                btc := s.btc_price, hist := s.price_history, poss := s.positions }
              (sortMarkets e.now s.markets) with
          | none => exact Nat.le_succ _
          | some t => exact execute_len e s t.1 t.2.1 t.2.2

/-- The settlement loop never adds positions. -/
theorem settleLoop_len (now : ℤ) (ps : List PaperPosition) :
    ∀ s : EngineState,
      ((settleLoop now s ps).state).positions.length ≤ s.positions.length := by
  induction ps with
  | nil => intro s; exact le_refl _
  | cons p rest ih =>
    intro s
    unfold settleLoop
    split_ifs with h
    · calc ((settleLoop now (applyVoid s p) rest).state).positions.length
          ≤ (applyVoid s p).positions.length := ih _
        _ = (s.positions.erase p).length := rfl
        _ ≤ s.positions.length := (List.erase_sublist p s.positions).length_le
    · exact le_refl _

/-- A settlement sweep never adds positions. -/
theorem settle_len (now : ℤ) (s : EngineState) :
    ((settle_expired_positions now s).state).positions.length ≤
      s.positions.length := by
  show ((if (List.filter (fun p => decide (p.end_time ≤ now)) s.positions).isEmpty = true
         then (⟨s, false⟩ : SweepOut)
         else if s.btc_price < 1000 then ⟨s, false⟩
         else if now - s.last_price_update > 30 then ⟨s, false⟩
         else settleLoop now s
           (List.filter (fun p => decide (p.end_time ≤ now)) s.positions)).state).positions.length ≤
      s.positions.length
  split_ifs
  · exact le_refl _
  · exact le_refl _
  · exact le_refl _
  · exact settleLoop_len now _ s

/-- Each atomic step preserves the one-open-position bound. -/
theorem step_le_one {s t : EngineState} (hstep : Step s t)
    (h : s.positions.length ≤ 1) : t.positions.length ≤ 1 := by
  cases hstep with
  | price avg tm _ => exact h
  | markets ms _ => exact h
  | evalCycle e _ =>
    by_cases hp : s.positions = []
    · have hlen := eval_len e s
      rw [hp] at hlen
      simpa using hlen
    · rw [eval_of_open_position e s hp]; exact h
  | settle now _ => exact le_trans (settle_len now s) h

/-- Invariant: every reachable engine state has at most one open
position. -/
theorem reachable_le_one {d0 : ℤ} {s : EngineState} (h : Reachable d0 s) :
    s.positions.length ≤ 1 := by
  induction h with
  | init => exact Nat.zero_le 1
  | step hr hstep ih => exact step_le_one hstep ih

/-! ## Concrete scenario material -/

/-- Float-routine stand-ins under which the cumulative normal returns 0.7
everywhere; used to exercise a trade decision with a clear edge. -/
def opsUp : FloatOps := ⟨fun _ => 1, fun _ => 0, fun _ => 7/10⟩

/-- Float-routine stand-ins returning 0.6: the fair probability then sits
exactly 0.10 above a 0.50 market quote. -/
def opsSixty : FloatOps := ⟨fun _ => 1, fun _ => 0, fun _ => 3/5⟩

/-- Float-routine stand-ins returning 0.5 from the cdf. -/
def opsHalf : FloatOps := ⟨fun _ => 1, fun _ => 0, fun _ => 1/2⟩

/-- A discovered market quoting 0.50 / 0.50 with strike $90000, expiring at
instant 300. -/
def mkt1 : Market :=
  { condition_id := "c", question := "q", description := "",
    strike_price := some 90000, slug := "btc-updown-15m-1",
    end_date := some 300, start_time := "",
    token_up := some "t1", token_down := some "t2",
    price_up := some (1/2), price_down := some (1/2),
    volume := 0, liquidity := 0, best_bid := 0, best_ask := 0,
    accepting_orders := true }

/-- External inputs of the concrete evaluator cycle: clock at 0, unit
volatility, a filled order. -/
def ext1 : ExtIn := { now := 0, today := 0, vol := 1, ops := opsUp, fill := true }

/-- Fresh engine that has discovered `mkt1`. -/
def stA : EngineState := { initEngine 0 with markets := [mkt1] }

/-- After one oracle tick at $91000. -/
def stB : EngineState := applyPriceUpdate 91000 (-1) stA

/-- After the evaluator cycle that opens the position ($0.50 at price
0.50). -/
def stC : EngineState := evaluate_trading_opportunities ext1 stB

/-- After a fresh oracle tick at $91050 just before expiry settlement. -/
def stD : EngineState := applyPriceUpdate 91050 305 stC

/-- The settlement sweep at instant 310 on the expired position. -/
def sweep1 : SweepOut := settle_expired_positions 310 stD

/-- The position the evaluator cycle opened in `stC`. -/
def posOpened : PaperPosition :=
  { market_slug := "btc-updown-15m-1", question := "q", side := Side.up,
    entry_price := 1/2, amount := 1/2, entry_time := 0, end_time := 300,
    token_id := some "t1", strike_price := 90000 }

/-- A state holding one open position, used to exercise the early exit. -/
def stNE : EngineState := { initEngine 0 with positions := [posOpened] }

/-! ## Claims -/

/-- C1.  Single-position mode: every reachable state has at most one open
position; the evaluator returns the state unchanged whenever a position is
open; one evaluator cycle opens at most one position. -/
theorem single_position_mode :
    (∀ (d0 : ℤ) (s : EngineState), Reachable d0 s → s.positions.length ≤ 1)
    ∧ (∀ (e : ExtIn) (s : EngineState), s.positions ≠ [] →
        evaluate_trading_opportunities e s = s)
    ∧ (∀ (e : ExtIn) (s : EngineState),
        (evaluate_trading_opportunities e s).positions.length ≤
          s.positions.length + 1) :=
  ⟨fun _ _ h => reachable_le_one h,
   fun e s hp => eval_of_open_position e s hp,
   fun e s => eval_len e s⟩

/-- C1 witness: at the fresh engine the bound holds, and on a state with
one open position the evaluator is the identity. -/
theorem single_position_mode_witness :
    (initEngine 0).positions.length ≤ 1
    ∧ evaluate_trading_opportunities ext1 stNE = stNE :=
  ⟨single_position_mode.1 0 (initEngine 0) Reachable.init,
   single_position_mode.2.1 ext1 stNE (by with_unfolding_all decide)⟩

/-- C4.  Late-void rule: a position reached by the settlement loop whose
expiry lies more than 300 s in the past is voided — the amount is refunded,
the position leaves the open list, a trade with status void, pnl 0 and type
LateVoid is appended — and the loop moves on without win/loss settlement of
that position. -/
theorem late_void_rule (now : ℤ) (s : EngineState) (p : PaperPosition)
    (rest : List PaperPosition) (hlate : now - p.end_time > 300) :
    settleLoop now s (p :: rest) = settleLoop now (applyVoid s p) rest
    ∧ (applyVoid s p).balance = s.balance + p.amount
    ∧ (applyVoid s p).positions = s.positions.erase p
    ∧ (applyVoid s p).trades = s.trades ++ [mkVoidTrade s p]
    ∧ (mkVoidTrade s p).status = TradeStatus.void
    ∧ (mkVoidTrade s p).pnl = 0
    ∧ (mkVoidTrade s p).trade_type = "LateVoid" := by
  refine ⟨?_, rfl, rfl, rfl, rfl, rfl, rfl⟩
  have hstep : settleLoop now s (p :: rest) =
      if now - p.end_time > 300 then settleLoop now (applyVoid s p) rest
      else ⟨applyRealSettle s p, true⟩ := rfl
  rw [hstep, if_pos hlate]

/-- C4 witness: a concrete position 400 s past expiry is voided with the
stated effects. -/
theorem late_void_rule_witness :
    settleLoop 700 stNE [posOpened] =
      settleLoop 700 (applyVoid stNE posOpened) []
    ∧ (applyVoid stNE posOpened).balance = stNE.balance + posOpened.amount
    ∧ (mkVoidTrade stNE posOpened).status = TradeStatus.void :=
  have h := late_void_rule 700 stNE posOpened [] (by with_unfolding_all decide)
  ⟨h.1, h.2.1, h.2.2.2.2.1⟩

/-- C5.  Stale-oracle safety: when the oracle timestamp is more than 30 s
old, or the composite price is under $1000, the settlement sweep returns
with the engine state unchanged and nothing settled or voided. -/
theorem stale_oracle_skips_sweep (now : ℤ) (s : EngineState)
    (h : now - s.last_price_update > 30 ∨ s.btc_price < 1000) :
    settle_expired_positions now s = ⟨s, false⟩ := by
  show (if (List.filter (fun p => decide (p.end_time ≤ now)) s.positions).isEmpty = true
        then (⟨s, false⟩ : SweepOut)
        else if s.btc_price < 1000 then ⟨s, false⟩
        else if now - s.last_price_update > 30 then ⟨s, false⟩
        else settleLoop now s
          (List.filter (fun p => decide (p.end_time ≤ now)) s.positions)) = ⟨s, false⟩
  split_ifs with h1 h2 h3
  · rfl
  · rfl
  · rfl
  · rcases h with h | h
    · exact absurd h h3
    · exact absurd h h2

/-- C5 witness: with an expired position but a 100 s old price stamp the
sweep is a no-op. -/
theorem stale_oracle_skips_sweep_witness :
    settle_expired_positions 400
      { stNE with btc_price := 91000, last_price_update := 0 } =
      ⟨{ stNE with btc_price := 91000, last_price_update := 0 }, false⟩ :=
  stale_oracle_skips_sweep 400 _ (Or.inl (by with_unfolding_all decide))

/-- C10.  Frame of the late-void path: voiding touches only the balance,
the open list, the trade log and the trade counter; the daily pnl, the win
counter and the whole risk-manager state (its daily pnl and open-position
count included) are untouched, since record_trade_closed and the drawdown
check sit on the real-settlement path only. -/
theorem late_void_frame (s : EngineState) (p : PaperPosition) :
    (applyVoid s p).pnl_today = s.pnl_today
    ∧ (applyVoid s p).winning_trades = s.winning_trades
    ∧ (applyVoid s p).risk = s.risk
    ∧ (applyVoid s p).initial_balance = s.initial_balance
    ∧ (applyVoid s p).btc_price = s.btc_price
    ∧ (applyVoid s p).last_price_update = s.last_price_update
    ∧ (applyVoid s p).markets = s.markets
    ∧ (applyVoid s p).price_history = s.price_history
    ∧ (applyVoid s p).last_trade_time = s.last_trade_time :=
  ⟨rfl, rfl, rfl, rfl, rfl, rfl, rfl, rfl, rfl⟩

set_option maxRecDepth 2000 in
/-- The crash state of the concrete settlement scenario is reachable from a
fresh engine: discover the market, take an oracle tick, run the evaluator
cycle that opens the $0.50 up position, take a fresh oracle tick, and run
the settlement sweep at instant 310. -/
theorem sweep1_reachable : Reachable 0 sweep1.state := by
  have h0 : Reachable 0 (initEngine 0) := Reachable.init
  have h1 : Reachable 0 stA := h0.step (Step.markets [mkt1] (initEngine 0))
  have h2 : Reachable 0 stB := h1.step (Step.price 91000 (-1) stA)
  have h3 : Reachable 0 stC := h2.step (Step.evalCycle ext1 stB)
  have h4 : Reachable 0 stD := h3.step (Step.price 91050 305 stC)
  exact h4.step (Step.settle 310 stD)

set_option maxRecDepth 2000 in
/-- C2.  The portfolio accounting identity fails in a reachable state: the
real-settlement branch credits the balance with amount plus pnl and then
aborts on the missing RiskManager.check_drawdown method, so the position is
still open and no closed trade is logged — the engine holds balance 10.5
with an open 0.5 position against an initial balance of 10 and an empty
closed-pnl sum. -/
theorem portfolio_identity_violated :
    Reachable 0 sweep1.state
    ∧ sweep1.state.balance + (sweep1.state.positions.map PaperPosition.amount).sum
        ≠ sweep1.state.initial_balance + (sweep1.state.trades.map PaperTrade.pnl).sum :=
  ⟨sweep1_reachable, by with_unfolding_all decide⟩

set_option maxRecDepth 2000 in
/-- C3.  The real-settlement path crashes before completing: the sweep on
the expired winning position marks crashed, has credited the balance
(9.5 + 0.5 + 0.5 = 10.5), updated pnl_today, the trade counters and the
risk manager, yet the trade log is still empty and the position (amount
0.5) is still open — the closed trade is never pushed and the position is
never removed. -/
theorem settlement_crash_on_real_path :
    sweep1.crashed = true
    ∧ sweep1.state.trades = []
    ∧ sweep1.state.positions.map PaperPosition.amount = [1/2]
    ∧ sweep1.state.balance = 21/2
    ∧ sweep1.state.pnl_today = 1/2
    ∧ sweep1.state.total_trades = 1
    ∧ sweep1.state.winning_trades = 1
    ∧ sweep1.state.risk.open_positions = 0 :=
  ⟨by with_unfolding_all decide, by with_unfolding_all decide,
   by with_unfolding_all decide, by with_unfolding_all decide,
   by with_unfolding_all decide, by with_unfolding_all decide,
   by with_unfolding_all decide, by with_unfolding_all decide⟩

/-- C9 (amended).  With no day rollover, a halted risk manager rejects
every trade and echoes the halt reason; and when the daily pnl is strictly
below the negated loss limit (and the trade passes the size checks placed
before the daily check), the trade is rejected and the halt flag set. -/
theorem halt_rejection (today : ℤ) (price size fee : ℚ) (side : String)
    (rs : RiskState) (hd : today = rs.current_date) :
    (rs.is_halted = true →
      (validate_trade today price size fee side rs).ok = false
      ∧ (validate_trade today price size fee side rs).reason
          = "Trading halted: " ++ rs.halt_reason)
    ∧ (rs.is_halted = false →
       rs.daily_pnl < -rs.max_daily_loss →
       price * size * (1 + fee) ≤ rs.max_trade →
       price * size * (1 + fee) ≤ rs.max_position →
       (validate_trade today price size fee side rs).ok = false
       ∧ (validate_trade today price size fee side rs).rs.is_halted = true) := by
  subst hd
  have hreset : resetDailyIfNeeded rs.current_date rs = rs := by
    unfold resetDailyIfNeeded
    rw [if_neg (by simp)]
  constructor
  · intro hh
    simp [validate_trade, hreset, hh, rejectWith]
  · intro hh hdaily htrade hpos
    have h1 : ¬ (price * size * (1 + fee) > rs.max_trade) := not_lt.mpr htrade
    have h2 : ¬ (price * size * (1 + fee) > rs.max_position) := not_lt.mpr hpos
    simp [validate_trade, hreset, hh, h1, h2, hdaily]

/-- A manually halted risk manager. -/
def rsHalted : RiskState :=
  { initRisk 5 5 1 5 0 with is_halted := true, halt_reason := "manual stop" }

/-- A risk manager whose daily pnl sits strictly below the loss limit. -/
def rsDeep : RiskState := { initRisk 5 5 1 5 0 with daily_pnl := -6 }

/-- C9 witness: the halted manager rejects a well-formed trade with the
halt reason echoed, and the deep-loss manager rejects it and halts. -/
theorem halt_rejection_witness :
    ((validate_trade 0 (1/2) 1 0 "BUY" rsHalted).ok = false
      ∧ (validate_trade 0 (1/2) 1 0 "BUY" rsHalted).reason
          = "Trading halted: " ++ rsHalted.halt_reason)
    ∧ ((validate_trade 0 (1/2) 1 0 "BUY" rsDeep).ok = false
      ∧ (validate_trade 0 (1/2) 1 0 "BUY" rsDeep).rs.is_halted = true) :=
  ⟨(halt_rejection 0 (1/2) 1 0 "BUY" rsHalted rfl).1 rfl,
   (halt_rejection 0 (1/2) 1 0 "BUY" rsDeep rfl).2 rfl
     (by with_unfolding_all decide)
     (by with_unfolding_all decide) (by with_unfolding_all decide)⟩

/-- A risk manager whose daily pnl equals the negated loss limit
exactly. -/
def rsBoundary : RiskState := { initRisk 5 5 1 5 0 with daily_pnl := -5 }

/-- C9 counterexample: with daily_pnl = −max_daily_loss the claimed
daily-loss trigger (daily_pnl not greater than the negated limit) holds,
yet validate_trade approves the trade and does not halt — the code tests
the limit strictly. -/
theorem halt_boundary_cex :
    ¬ (rsBoundary.daily_pnl > -rsBoundary.max_daily_loss)
    ∧ (validate_trade 0 (1/2) 1 0 "BUY" rsBoundary).ok = true
    ∧ (validate_trade 0 (1/2) 1 0 "BUY" rsBoundary).rs.is_halted = false := by
  with_unfolding_all decide

/-- C8 (amended).  Fair-value computation, characterized for both code
paths with positive spot and time remaining: in the main region (scaled
volatility at least 1e-4 and positive strike) the evaluator inline block
and the calculator agree and equal the clipped cdf of log(S/K) over the
scaled volatility; the evaluator clips its degenerate branch (fired by tiny
scaled volatility OR non-positive strike) to [0.01, 0.99]; the calculator
fires its unclipped degenerate branch on tiny scaled volatility or
non-positive SPOT, and on a non-positive strike outside that region it
returns the clipped cdf of 0. -/
theorem fair_value_characterization (ops : FloatOps) (vol S K : ℚ) (τ : ℤ)
    (hτ : 0 < τ) (hS : 0 < S) :
    (1/10000 ≤ vol * ops.sqrtF ((τ:ℚ)/31557600) → 0 < K →
        fairProbInline ops vol S K (τ:ℚ)
          = clip01 (ops.cdfF (ops.logF (S/K) / (vol * ops.sqrtF ((τ:ℚ)/31557600))))
        ∧ calculate_fair_probability ops vol S K τ = fairProbInline ops vol S K (τ:ℚ))
    ∧ (vol * ops.sqrtF ((τ:ℚ)/31557600) < 1/10000 ∨ K ≤ 0 →
        fairProbInline ops vol S K (τ:ℚ) = clip01 (if S > K then 1 else 0))
    ∧ (vol * ops.sqrtF ((τ:ℚ)/31557600) < 1/10000 →
        calculate_fair_probability ops vol S K τ = (if S > K then 1 else 0))
    ∧ (1/10000 ≤ vol * ops.sqrtF ((τ:ℚ)/31557600) → K ≤ 0 →
        calculate_fair_probability ops vol S K τ = clip01 (ops.cdfF 0)) := by
  have hτ2 : ¬ (τ ≤ 0) := not_le.mpr hτ
  refine ⟨?_, ?_, ?_, ?_⟩
  · intro hσ hK
    have hcond : ¬ (vol * ops.sqrtF ((τ:ℚ)/31557600) < 1/10000 ∨ K ≤ 0) := by
      push_neg
      exact ⟨hσ, hK⟩
    have hcondS : ¬ (vol * ops.sqrtF ((τ:ℚ)/31557600) < 1/10000 ∨ S ≤ 0) := by
      push_neg
      exact ⟨hσ, hS⟩
    constructor
    · show clip01 (if vol * ops.sqrtF ((τ:ℚ)/31557600) < 1/10000 ∨ K ≤ 0
               then (if S > K then (1:ℚ) else 0)
               else ops.cdfF (ops.logF (S/K) / (vol * ops.sqrtF ((τ:ℚ)/31557600)))) = _
      rw [if_neg hcond]
    · show (if τ ≤ 0 then (if S > K then (1:ℚ) else 0)
        else if vol * ops.sqrtF ((τ:ℚ)/31557600) < 1/10000 ∨ S ≤ 0
          then (if S > K then (1:ℚ) else 0)
          else clip01 (ops.cdfF
            (if K > 0 then ops.logF (S/K) / (vol * ops.sqrtF ((τ:ℚ)/31557600)) else 0)))
        = clip01 (if vol * ops.sqrtF ((τ:ℚ)/31557600) < 1/10000 ∨ K ≤ 0
                then (if S > K then (1:ℚ) else 0)
                else ops.cdfF (ops.logF (S/K) / (vol * ops.sqrtF ((τ:ℚ)/31557600))))
      rw [if_neg hτ2, if_neg hcondS, if_neg hcond, if_pos hK]
  · intro hcond
    show clip01 (if vol * ops.sqrtF ((τ:ℚ)/31557600) < 1/10000 ∨ K ≤ 0
               then (if S > K then (1:ℚ) else 0)
               else ops.cdfF (ops.logF (S/K) / (vol * ops.sqrtF ((τ:ℚ)/31557600))))
        = clip01 (if S > K then 1 else 0)
    rw [if_pos hcond]
  · intro hσ
    show (if τ ≤ 0 then (if S > K then (1:ℚ) else 0)
        else if vol * ops.sqrtF ((τ:ℚ)/31557600) < 1/10000 ∨ S ≤ 0
          then (if S > K then (1:ℚ) else 0)
          else clip01 (ops.cdfF
            (if K > 0 then ops.logF (S/K) / (vol * ops.sqrtF ((τ:ℚ)/31557600)) else 0)))
        = (if S > K then 1 else 0)
    rw [if_neg hτ2, if_pos (Or.inl hσ)]
  · intro hσ hK
    have hcondS : ¬ (vol * ops.sqrtF ((τ:ℚ)/31557600) < 1/10000 ∨ S ≤ 0) := by
      push_neg
      exact ⟨hσ, hS⟩
    have hK2 : ¬ (K > 0) := not_lt.mpr hK
    show (if τ ≤ 0 then (if S > K then (1:ℚ) else 0)
        else if vol * ops.sqrtF ((τ:ℚ)/31557600) < 1/10000 ∨ S ≤ 0
          then (if S > K then (1:ℚ) else 0)
          else clip01 (ops.cdfF
            (if K > 0 then ops.logF (S/K) / (vol * ops.sqrtF ((τ:ℚ)/31557600)) else 0)))
        = clip01 (ops.cdfF 0)
    rw [if_neg hτ2, if_neg hcondS, if_neg hK2]

/-- Unit float-routine stand-ins: sqrt maps to 1, log to 0, cdf to 1/2. -/
def opsUnit : FloatOps := ⟨fun _ => 1, fun _ => 0, fun _ => 1/2⟩

/-- C8 witness: at ops with unit sqrt, vol 1, S = 3, K = 2, 600 s the two
code paths agree. -/
theorem fair_value_characterization_witness :
    calculate_fair_probability opsUnit 1 3 2 600 = fairProbInline opsUnit 1 3 2 (600:ℚ) :=
  ((fair_value_characterization opsUnit 1 3 2 600 (by with_unfolding_all decide)
      (by with_unfolding_all decide)).1
    (by with_unfolding_all decide) (by with_unfolding_all decide)).2

/-- C8 counterexample: at K = 0 (the claimed degenerate zone) with S = 2
and a scaled volatility of 1, the claim predicts the value 1 from both
paths, but the evaluator inline block yields the clipped 0.99 and the
calculator takes its main branch and yields the cdf value 0.5. -/
theorem fair_value_cex :
    ((0:ℚ) ≤ 0 ∧ (2:ℚ) > 0)
    ∧ fairProbInline opsUnit 1 2 0 600 = 99/100
    ∧ calculate_fair_probability opsUnit 1 2 0 600 = 1/2 := by
  refine ⟨by with_unfolding_all decide, ?_, ?_⟩
  · with_unfolding_all decide
  · with_unfolding_all decide

/-- The gates of the evaluator other than the TA filter and the edge pick. -/
structure OtherGates (c : EvalCtx) (m : Market) (strike : ℚ) (endT : ℤ)
    (pu pd : ℚ) : Prop where
  spread_ok : m.best_ask - m.best_bid ≤ 5/100
  no_dup : (c.poss.any (fun p => p.market_slug = m.slug)) = false
  accepting : m.accepting_orders = true
  time_lb : 1 < remainingSecs c.now endT / 60
  time_ub : remainingSecs c.now endT / 60 ≤ 12
  confident : ¬ (2/5 < fairProbInline c.ops c.vol c.btc strike (remainingSecs c.now endT)
      ∧ fairProbInline c.ops c.vol c.btc strike (remainingSecs c.now endT) < 3/5)
  band_lb : 19/20 ≤ pu + pd
  band_ub : pu + pd ≤ 21/20

/-- C6 (amended).  Edge gate: given a market whose strike, end date and
outcome prices are present (and a non-zero strike), the evaluator picks a
side exactly when the other gates pass, the TA filter allows that side, and
the fair probability of the side exceeds the market price of the side by
STRICTLY more than the 0.10 minimum edge.  The down side needs no
exclusivity clause: inside the price-sum band both sides can never clear
the edge at once. -/
theorem edge_gate_strict (c : EvalCtx) (m : Market) (strike : ℚ) (endT : ℤ) (pu pd : ℚ)
    (hs : m.strike_price = some strike) (hs0 : ¬ strike = 0)
    (he : m.end_date = some endT)
    (hu : m.price_up = some pu) (hd : m.price_down = some pd) :
    (evalMarket c m = some (Side.up, pu)
      ↔ OtherGates c m strike endT pu pd ∧ canBuyUp c.hist
        ∧ fairProbInline c.ops c.vol c.btc strike (remainingSecs c.now endT) - pu > 1/10)
    ∧ (evalMarket c m = some (Side.down, pd)
      ↔ OtherGates c m strike endT pu pd ∧ canBuyDown c.hist
        ∧ (1 - fairProbInline c.ops c.vol c.btc strike (remainingSecs c.now endT)) - pd > 1/10) := by
  unfold evalMarket
  rw [hs, he, hu, hd]
  dsimp only []
  rw [if_neg hs0]
  set fair := fairProbInline c.ops c.vol c.btc strike (remainingSecs c.now endT) with hfair
  by_cases g1 : m.best_ask - m.best_bid > 5/100
  · rw [if_pos g1]
    have hng : ¬ OtherGates c m strike endT pu pd :=
      fun hg => absurd hg.spread_ok (not_le.mpr g1)
    exact ⟨⟨fun h => absurd h (by simp), fun hg => absurd hg.1 hng⟩,
           ⟨fun h => absurd h (by simp), fun hg => absurd hg.1 hng⟩⟩
  · rw [if_neg g1]
    by_cases g2 : (c.poss.any (fun p => p.market_slug = m.slug)) = true
    · rw [if_pos g2]
      have hng : ¬ OtherGates c m strike endT pu pd := by
        intro hg
        rw [hg.no_dup] at g2
        exact absurd g2 (by simp)
      exact ⟨⟨fun h => absurd h (by simp), fun hg => absurd hg.1 hng⟩,
             ⟨fun h => absurd h (by simp), fun hg => absurd hg.1 hng⟩⟩
    · rw [if_neg g2]
      by_cases g3 : m.accepting_orders = false
      · rw [if_pos g3]
        have hng : ¬ OtherGates c m strike endT pu pd := by
          intro hg
          rw [hg.accepting] at g3
          exact absurd g3 (by simp)
        exact ⟨⟨fun h => absurd h (by simp), fun hg => absurd hg.1 hng⟩,
               ⟨fun h => absurd h (by simp), fun hg => absurd hg.1 hng⟩⟩
      · rw [if_neg g3]
        by_cases g4 : remainingSecs c.now endT / 60 ≤ 1
        · rw [if_pos g4]
          have hng : ¬ OtherGates c m strike endT pu pd :=
            fun hg => absurd hg.time_lb (not_lt.mpr g4)
          exact ⟨⟨fun h => absurd h (by simp), fun hg => absurd hg.1 hng⟩,
                 ⟨fun h => absurd h (by simp), fun hg => absurd hg.1 hng⟩⟩
        · rw [if_neg g4]
          by_cases g5 : remainingSecs c.now endT / 60 > 12
          · rw [if_pos g5]
            have hng : ¬ OtherGates c m strike endT pu pd :=
              fun hg => absurd hg.time_ub (not_le.mpr g5)
            exact ⟨⟨fun h => absurd h (by simp), fun hg => absurd hg.1 hng⟩,
                   ⟨fun h => absurd h (by simp), fun hg => absurd hg.1 hng⟩⟩
          · rw [if_neg g5]
            have g6 : ¬ (remainingSecs c.now endT / 60 ≤ 0) := by
              intro h6
              exact g4 (le_trans h6 (by norm_num))
            rw [if_neg g6]
            by_cases g7 : 2/5 < fair ∧ fair < 3/5
            · rw [if_pos g7]
              have hng : ¬ OtherGates c m strike endT pu pd :=
                fun hg => absurd g7 hg.confident
              exact ⟨⟨fun h => absurd h (by simp), fun hg => absurd hg.1 hng⟩,
                     ⟨fun h => absurd h (by simp), fun hg => absurd hg.1 hng⟩⟩
            · rw [if_neg g7]
              by_cases g8 : ¬ (19/20 ≤ pu + pd ∧ pu + pd ≤ 21/20)
              · rw [if_pos g8]
                have hng : ¬ OtherGates c m strike endT pu pd :=
                  fun hg => absurd ⟨hg.band_lb, hg.band_ub⟩ g8
                exact ⟨⟨fun h => absurd h (by simp), fun hg => absurd hg.1 hng⟩,
                       ⟨fun h => absurd h (by simp), fun hg => absurd hg.1 hng⟩⟩
              · rw [if_neg g8]
                have hband := not_not.mp g8
                have hgates : OtherGates c m strike endT pu pd :=
                  ⟨not_lt.mp g1, (by simpa using g2), (by simpa using g3),
                   not_le.mp g4, not_lt.mp g5, g7, hband.1, hband.2⟩
                constructor
                · constructor
                  · intro h
                    by_cases hup : canBuyUp c.hist ∧ fair > pu + 1/10
                    · exact ⟨hgates, hup.1, by linarith [hup.2]⟩
                    · rw [if_neg hup] at h
                      by_cases hdn : canBuyDown c.hist ∧ 1 - fair > pd + 1/10
                      · rw [if_pos hdn] at h; simp at h
                      · rw [if_neg hdn] at h; simp at h
                  · rintro ⟨-, hcan, hedge⟩
                    rw [if_pos ⟨hcan, by linarith⟩]
                · constructor
                  · intro h
                    by_cases hup : canBuyUp c.hist ∧ fair > pu + 1/10
                    · rw [if_pos hup] at h; simp at h
                    · rw [if_neg hup] at h
                      by_cases hdn : canBuyDown c.hist ∧ 1 - fair > pd + 1/10
                      · exact ⟨hgates, hdn.1, by linarith [hdn.2]⟩
                      · rw [if_neg hdn] at h; simp at h
                  · rintro ⟨-, hcan, hedge⟩
                    have hnup : ¬ (canBuyUp c.hist ∧ fair > pu + 1/10) := by
                      rintro ⟨-, hup⟩
                      have := hgates.band_lb
                      linarith
                    rw [if_neg hnup, if_pos ⟨hcan, by linarith⟩]

/-- Evaluator snapshot at $91000 with unit volatility and the 0.7-cdf
stand-ins. -/
def ctxUp : EvalCtx :=
  { now := 0, today := 0, vol := 1, ops := opsUp, btc := 91000,
    hist := [], poss := [] }

/-- The same snapshot with the 0.6-cdf stand-ins: the fair probability
lands exactly 0.10 above the 0.50 quote. -/
def ctxSixty : EvalCtx := { ctxUp with ops := opsSixty }

/-- C6 witness: on the concrete market the evaluator picks the up side at
price 0.50 (fair 0.7, edge 0.2). -/
theorem edge_gate_strict_witness : evalMarket ctxUp mkt1 = some (Side.up, 1/2) :=
  ((edge_gate_strict ctxUp mkt1 90000 300 (1/2) (1/2) rfl (by with_unfolding_all decide)
      rfl rfl rfl).1).mpr
    ⟨⟨by with_unfolding_all decide, by with_unfolding_all decide,
      by with_unfolding_all decide, by with_unfolding_all decide,
      by with_unfolding_all decide, by with_unfolding_all decide,
      by with_unfolding_all decide, by with_unfolding_all decide⟩,
     by with_unfolding_all decide, by with_unfolding_all decide⟩

/-- C6 counterexample: with the fair probability exactly 0.10 above the
quoted up price and every other gate passing (TA filter included), the
evaluator picks no side — so the claimed non-strict reading (trade when the
edge is at least 0.10) is false on the code, which compares strictly. -/
theorem edge_gate_boundary_cex :
    evalMarket ctxSixty mkt1 = none
    ∧ OtherGates ctxSixty mkt1 90000 300 (1/2) (1/2)
    ∧ canBuyUp ctxSixty.hist
    ∧ fairProbInline ctxSixty.ops ctxSixty.vol ctxSixty.btc 90000
        (remainingSecs ctxSixty.now 300) - 1/2 = 1/10 :=
  ⟨by with_unfolding_all decide,
   ⟨by with_unfolding_all decide, by with_unfolding_all decide,
    by with_unfolding_all decide, by with_unfolding_all decide,
    by with_unfolding_all decide, by with_unfolding_all decide,
    by with_unfolding_all decide, by with_unfolding_all decide⟩,
   by with_unfolding_all decide, by with_unfolding_all decide⟩

/-- C7 (amended).  The price-sum band is enforced by the evaluator, not by
discovery: whenever the evaluator picks a side on a market, that market has
both outcome prices present and their sum lies in [0.95, 1.05]. -/
theorem evaluator_band_guard (c : EvalCtx) (m : Market) (sd : Side) (pr : ℚ)
    (h : evalMarket c m = some (sd, pr)) :
    ∃ pu pd, m.price_up = some pu ∧ m.price_down = some pd
      ∧ 19/20 ≤ pu + pd ∧ pu + pd ≤ 21/20 := by
  unfold evalMarket at h
  by_cases g1 : m.best_ask - m.best_bid > 5/100
  · rw [if_pos g1] at h; simp at h
  · rw [if_neg g1] at h
    by_cases g2 : (c.poss.any (fun p => p.market_slug = m.slug)) = true
    · rw [if_pos g2] at h; simp at h
    · rw [if_neg g2] at h
      by_cases g3 : m.accepting_orders = false
      · rw [if_pos g3] at h; simp at h
      · rw [if_neg g3] at h
        cases hsp : m.strike_price with
        | none => rw [hsp] at h; simp at h
        | some strike =>
          rw [hsp] at h
          dsimp only [] at h
          by_cases hs0 : strike = 0
          · rw [if_pos hs0] at h; simp at h
          · rw [if_neg hs0] at h
            cases hed : m.end_date with
            | none => rw [hed] at h; simp at h
            | some endT =>
              rw [hed] at h
              dsimp only [] at h
              by_cases g4 : remainingSecs c.now endT / 60 ≤ 1
              · rw [if_pos g4] at h; simp at h
              · rw [if_neg g4] at h
                by_cases g5 : remainingSecs c.now endT / 60 > 12
                · rw [if_pos g5] at h; simp at h
                · rw [if_neg g5] at h
                  have g6 : ¬ (remainingSecs c.now endT / 60 ≤ 0) := by
                    intro h6
                    exact g4 (le_trans h6 (by norm_num))
                  rw [if_neg g6] at h
                  by_cases g7 : 2/5 < fairProbInline c.ops c.vol c.btc strike
                      (remainingSecs c.now endT)
                      ∧ fairProbInline c.ops c.vol c.btc strike
                          (remainingSecs c.now endT) < 3/5
                  · rw [if_pos g7] at h; simp at h
                  · rw [if_neg g7] at h
                    cases hpu : m.price_up with
                    | none =>
                      rw [hpu] at h
                      cases hpd : m.price_down with
                      | none => rw [hpd] at h; simp at h
                      | some pd => rw [hpd] at h; simp at h
                    | some pu =>
                      rw [hpu] at h
                      cases hpd : m.price_down with
                      | none => rw [hpd] at h; simp at h
                      | some pd =>
                        rw [hpd] at h
                        dsimp only [] at h
                        by_cases g8 : ¬ (19/20 ≤ pu + pd ∧ pu + pd ≤ 21/20)
                        · rw [if_pos g8] at h; simp at h
                        · exact ⟨pu, pd, rfl, rfl,
                            (not_not.mp g8).1, (not_not.mp g8).2⟩

/-- C7 witness: the concrete traded market satisfies the band. -/
theorem evaluator_band_guard_witness :
    ∃ pu pd, mkt1.price_up = some pu ∧ mkt1.price_down = some pd
      ∧ 19/20 ≤ pu + pd ∧ pu + pd ≤ 21/20 :=
  evaluator_band_guard ctxUp mkt1 Side.up (1/2) (by with_unfolding_all decide)

/-- A raw feed market quoting 0.90 / 0.50 (price sum 1.4). -/
def rmCex : RawMarket :=
  { outcomes := ["Up","Down"], clobTokenIds := ["t1","t2"],
    outcomePrices := [9/10, 1/2], description := "", question := "btc up?",
    conditionId := "c", questionID := "q", endDate := some 1000,
    volume := 0, liquidity := 0, bestBid := 0, bestAsk := 0,
    acceptingOrders := true }

/-- A raw feed event with a fresh matching slug carrying `rmCex`. -/
def evCex : RawEvent :=
  { slug := "btc-updown-15m-500", tags := [], startDate := "",
    markets := [rmCex] }

/-- C7 counterexample: `discover_15min_btc_markets` returns the market
whose outcome-price sum is 1.4, far outside [0.95, 1.05] — discovery does
not reject on the band. -/
theorem discovery_band_cex :
    (discover_15min_btc_markets (fun _ _ => none) 400 [evCex]).map
        (fun m => ((m.price_up).getD 0 + (m.price_down).getD 0)) = [7/5]
    ∧ ¬ (19/20 ≤ (7/5:ℚ) ∧ (7/5:ℚ) ≤ 21/20) := by
  with_unfolding_all decide

end Poly
